import Mathlib

/-!
Shallow embedding of the aggregation core of the project-management client
(src/src/App.tsx and the matching code in src/unnamed/part_001): the numeric
coercion `num`, status classification `isArchived`, project-code sequencing
`getNextProjectCode`, and the BOM / time / quote / margin rollups.

JavaScript numbers are modelled as `JSNum` (an exact rational or one of the
non-finite values NaN, Infinity, -Infinity); arithmetic on values that have
passed through `num` is exact rational arithmetic.  Nullable JS values
(`number | null`, plus `undefined`) are modelled by `Value`, where `vnull`
stands for both `null` and `undefined` (the source only distinguishes them
through `??` and `String(... ?? "")`, which treat the two alike).
-/

/-- A JavaScript number: a finite value (kept exact as a rational) or one of
the three non-finite values. -/
inductive JSNum where
  | fin (q : ℚ)
  | nan
  | inf
  | negInf
deriving DecidableEq

/-- Model of JavaScript `Number.isFinite` / global `isFinite` on a number. -/
def JSNum.isFinite : JSNum → Bool
  | .fin _ => true
  | _ => false

/-- Extract the rational of a finite `JSNum` (non-finite values map to 0;
they are only ever extracted after an `isFinite` guard). -/
def JSNum.toQ : JSNum → ℚ
  | .fin q => q
  | _ => 0

/-- A JavaScript value as far as the aggregation core can observe it:
a number, a string, or null/undefined. -/
inductive Value where
  | vnum (n : JSNum)
  | vstr (s : String)
  | vnull
deriving DecidableEq

/-- Model of the JS nullish-coalescing operator `x ?? y`. -/
def nullish (x y : Value) : Value :=
  match x with
  | .vnull => y
  | _ => x

/-- True for the whitespace characters stripped by `parseFloat`/`parseInt`. -/
def isSpaceChar (c : Char) : Bool :=
  c == ' ' || c == '\t' || c == '\n' || c == '\r'

/-- Numeric value of a list of decimal digit characters, most significant
first (the accumulator fold used by radix-10 string parsing). -/
def digitsVal (ds : List Char) : ℕ :=
  ds.foldl (fun a c => a * 10 + (c.toNat - 48)) 0

/-- The longest leading run of decimal digits, if non-empty. -/
def leadingDigitsVal (cs : List Char) : Option ℕ :=
  let ds := cs.takeWhile Char.isDigit
  if ds.isEmpty then none else some (digitsVal ds)

/-- Model of JavaScript `parseInt(s, 10)`: strip leading whitespace, accept an
optional sign, then parse the longest leading digit run; `none` models NaN. -/
def parseInt10 (s : String) : Option Int :=
  let cs := s.data.dropWhile isSpaceChar
  match cs with
  | [] => none
  | c :: rest =>
    if c = '-' then (leadingDigitsVal rest).map (fun m => -(m : Int))
    else if c = '+' then (leadingDigitsVal rest).map (fun m => (m : Int))
    else (leadingDigitsVal cs).map (fun m => (m : Int))

/-- Exponent of a JS float literal: sign and digit run after `e`/`E`
(defaults to 0 when no digits follow, in which case `parseFloat` does not
consume the exponent and the mantissa alone stands). -/
def parseExpVal (cs : List Char) : Int :=
  match cs with
  | c :: rest =>
    if c = '-' then -((leadingDigitsVal rest).getD 0 : Int)
    else if c = '+' then ((leadingDigitsVal rest).getD 0 : Int)
    else ((leadingDigitsVal cs).getD 0 : Int)
  | [] => 0

/-- Mantissa and exponent of a parsed float combined into an exact rational. -/
def floatVal (intPart fracPart : List Char) (exp : Int) : ℚ :=
  ((digitsVal intPart : ℚ) + (digitsVal fracPart : ℚ) / (10 : ℚ) ^ fracPart.length)
    * (10 : ℚ) ^ exp

/-- Model of JavaScript `parseFloat`: strip leading whitespace, accept an
optional sign, then `Infinity` or a decimal literal `digits[.digits][e±digits]`;
requires at least one digit in the integer or fraction part, else NaN. -/
def parseFloat (s : String) : JSNum :=
  let cs := s.data.dropWhile isSpaceChar
  let sign : Bool := cs.head? == some '-'
  let cs2 := match cs with
    | c :: rest => if c = '-' ∨ c = '+' then rest else cs
    | [] => cs
  if ("Infinity".data).isPrefixOf cs2 then (if sign then .negInf else .inf)
  else
    let intPart := cs2.takeWhile Char.isDigit
    let afterInt := cs2.dropWhile Char.isDigit
    let fracPart := match afterInt with
      | c :: rest => if c = '.' then rest.takeWhile Char.isDigit else []
      | [] => []
    let afterFrac := match afterInt with
      | c :: rest => if c = '.' then rest.dropWhile Char.isDigit else afterInt
      | [] => afterInt
    if intPart.isEmpty && fracPart.isEmpty then .nan
    else
      let exp : Int := match afterFrac with
        | c :: rest => if c = 'e' ∨ c = 'E' then parseExpVal rest else 0
        | [] => 0
      let m := floatVal intPart fracPart exp
      .fin (if sign then -m else m)

/-- Embedding of `num` (src/src/App.tsx:152-155): coerce any value to a
number, using `parseFloat(String(v ?? ""))` for non-numbers, and return the
fallback whenever the result is not finite.  The default fallback in the source is
0; call sites pass `JSNum.fin 0` explicitly. -/
def num (v : Value) (fallback : JSNum) : JSNum :=
  let n : JSNum :=
    match v with
    | .vnum n => n
    | .vstr s => parseFloat s
    | .vnull => parseFloat ""
  if n.isFinite then n else fallback

/-- The rational a value contributes to arithmetic after passing through
`num` with the default fallback 0 (always finite, so `toQ` is exact). -/
def numQ (v : Value) : ℚ :=
  (num v (.fin 0)).toQ

/-- Model of JavaScript `toLowerCase` on the ASCII range (the archived-set
constants and the statuses of the domain are ASCII): lower-case every
character. -/
def strToLower (s : String) : String :=
  ⟨s.data.map Char.toLower⟩

/-- Embedding of `isArchived` (src/src/App.tsx:143-146): lower-case the
status (null/undefined become "") and compare with the two archived states. -/
def isArchived (status : Option String) : Bool :=
  let s := strToLower (status.getD "")
  s == "abgeschlossen" || s == "nicht beauftragt"

/-- Decimal rendering of a natural number (fuel-based so that it reduces in
the kernel; `natToStr` always supplies enough fuel).  Models JavaScript
`String(n)` for a non-negative integer. -/
def natToStrAux : ℕ → ℕ → List Char
  | 0, _ => []
  | fuel + 1, n =>
    if n < 10 then [Nat.digitChar n]
    else natToStrAux fuel (n / 10) ++ [Nat.digitChar (n % 10)]

/-- Model of JavaScript `String(n)` for a natural number. -/
def natToStr (n : ℕ) : String :=
  ⟨natToStrAux (n + 1) n⟩

/-- Model of JavaScript `String(i)` for an integer. -/
def intToStr (i : Int) : String :=
  if i < 0 then "-" ++ natToStr (-i).toNat else natToStr i.toNat

/-- Model of JavaScript `String.prototype.padStart(len, c)`: left-pad to the
target length; strings already at least that long are returned unchanged. -/
def padStart (s : String) (len : ℕ) (c : Char) : String :=
  if len ≤ s.length then s else ⟨List.replicate (len - s.length) c ++ s.data⟩

/-- Model of JavaScript `s.slice(n)` for a non-negative index (character
based; the source only slices ASCII project codes). -/
def strDropChars (s : String) (n : ℕ) : String :=
  ⟨s.data.drop n⟩

/-- Model of JavaScript `s.startsWith(p)`. -/
def strStartsWith (s p : String) : Bool :=
  p.data.isPrefixOf s.data

/-- One iteration of the loop body of `getNextProjectCode`
(src/src/App.tsx:400-407): the `code` column of a row (`null` becomes `""` via
`String(r.code ?? "")`) is kept when it starts with `"{year}-"`; the suffix
after the first five characters (the source hardcodes `slice(5)`) is parsed
with `parseInt(rest, 10)`; a finite result feeds the running maximum. -/
def nextCodeStep (yd : String) (acc : Int) (r : Option String) : Int :=
  let code := r.getD ""
  if strStartsWith code yd then
    match parseInt10 (strDropChars code 5) with
    | some n => max acc n
    | none => acc
  else acc

/-- The running maximum computed by the loop of `getNextProjectCode`. -/
def nextCodeMax (year : ℕ) (codes : List (Option String)) : Int :=
  codes.foldl (nextCodeStep (natToStr year ++ "-")) 0

/-- Embedding of the pure core of `getNextProjectCode`
(src/src/App.tsx:395-409): fold `nextCodeStep` over the rows starting from 0
and output `"{year}-" ++ String(maxN + 1).padStart(3, "0")`. -/
def getNextProjectCode (year : ℕ) (codes : List (Option String)) : String :=
  natToStr year ++ "-" ++ padStart (intToStr (nextCodeMax year codes + 1)) 3 '0'

/-- A bill-of-materials line as the rollups read it (src/src/App.tsx:38-47):
`qty` and `unit_price_net` are `number | null`. -/
structure BomItem where
  qty : Value
  unit_price_net : Value
deriving DecidableEq

/-- Embedding of the BOM total (src/src/App.tsx:820 and 896):
`items.reduce((s, it) => s + num(it.qty) * num(it.unit_price_net), 0)`. -/
def materialTotal (items : List BomItem) : ℚ :=
  items.foldl (fun s it => s + numQ it.qty * numQ it.unit_price_net) 0

/-- A time entry as the rollups read it (src/src/App.tsx:49-58): `hours` and
`hourly_rate` are `number | null`. -/
structure TimeEntry where
  hours : Value
  hourly_rate : Value
deriving DecidableEq

/-- Embedding of the time-cost total (src/src/App.tsx:813 and 1087):
`entries.reduce((s, e) => s + num(e.hours) * num(e.hourly_rate ?? fallbackRate), 0)`,
where `fallbackRate` is the (nullable) `hourly_rate` of the owning project. -/
def timeCost (entries : List TimeEntry) (fallbackRate : Value) : ℚ :=
  entries.foldl (fun s e => s + numQ e.hours * numQ (nullish e.hourly_rate fallbackRate)) 0

/-- A quote line item as the totals read it (src/src/App.tsx:85-95). -/
structure QuoteItem where
  qty : Value
  unit_price_net : Value
  discount_pct : Value
deriving DecidableEq

/-- The quote header field the totals read (src/src/App.tsx:74-83):
`tax_rate` is `number | null`. -/
structure Quote where
  tax_rate : Value
deriving DecidableEq

/-- The record returned by the quote-totals computation. -/
structure QuoteTotals where
  sumNet : ℚ
  vat : ℚ
  gross : ℚ
  taxRate : ℚ
deriving DecidableEq

/-- Embedding of the quote totals (src/src/App.tsx:1309-1318): per line
`num(qty) * (num(unit_price_net) * (1 - num(discount_pct) / 100))`, summed;
`taxRate = num(quote?.tax_rate ?? 19)` (the header itself may be absent);
`vat = sumNet * taxRate / 100`; `gross = sumNet + vat`. -/
def quoteTotals (quoteHeader : Option Quote) (items : List QuoteItem) : QuoteTotals :=
  let sumNet := items.foldl
    (fun s it => s + numQ it.qty * (numQ it.unit_price_net * (1 - numQ it.discount_pct / 100))) 0
  let taxRate := numQ (nullish (match quoteHeader with
    | some q => q.tax_rate
    | none => .vnull) (.vnum (.fin 19)))
  let vat := sumNet * taxRate / 100
  { sumNet := sumNet, vat := vat, gross := sumNet + vat, taxRate := taxRate }

/-- Embedding of the margin computation (src/src/App.tsx:825-826, likewise
src/unnamed/part_001:958-959): the code guards the revenue with a JS
truthiness test — `num(revenue) ? profit / num(revenue) * 100 : 0` — so a
zero (or null) revenue takes the `: 0` branch.  `num` never returns NaN with
the default fallback, so the number is falsy exactly when it equals 0. -/
def marginPct (profit : ℚ) (revenue : Value) : ℚ :=
  if numQ revenue ≠ 0 then profit / numQ revenue * 100 else 0

example : numQ (.vnum (.fin 3)) = 3 := rfl
example : numQ .vnull = 0 := rfl
example : numQ (.vnum .nan) = 0 := rfl
example : numQ (.vstr "abc") = 0 := by decide
example : isArchived (some "Abgeschlossen") = true := by decide
example : isArchived none = false := by decide
example : parseInt10 "12abc" = some 12 := by decide
example : parseInt10 "abc" = none := by decide
example : natToStr 2025 = "2025" := by decide
example : getNextProjectCode 2025 [some "2025-abc", none] = "2025-001" := by decide

/-! ### Helper lemmas about characters and digit strings -/

theorem digitChar_isDigit (d : ℕ) (h : d < 10) : (Nat.digitChar d).isDigit = true := by
  interval_cases d <;> decide

theorem digitChar_toNat (d : ℕ) (h : d < 10) : (Nat.digitChar d).toNat = 48 + d := by
  interval_cases d <;> decide

theorem isDigit_ne_of (c d : Char) (h : c.isDigit = true) (hd : d.isDigit = false) : c ≠ d := by
  intro e
  rw [e, hd] at h
  cases h

theorem isSpaceChar_eq_false (c : Char) (h : c.isDigit = true) : isSpaceChar c = false := by
  have h1 : c ≠ ' ' := isDigit_ne_of c ' ' h (by decide)
  have h2 : c ≠ '\t' := isDigit_ne_of c '\t' h (by decide)
  have h3 : c ≠ '\n' := isDigit_ne_of c '\n' h (by decide)
  have h4 : c ≠ '\r' := isDigit_ne_of c '\r' h (by decide)
  simp [isSpaceChar, h1, h2, h3, h4]

theorem digitsVal_append_singleton (l : List Char) (c : Char) :
    digitsVal (l ++ [c]) = digitsVal l * 10 + (c.toNat - 48) := by
  simp [digitsVal, List.foldl_append]

theorem takeWhile_append_all (p : Char → Bool) :
    ∀ (l₁ l₂ : List Char), (∀ c ∈ l₁, p c = true) → (∀ c ∈ l₂.head?, p c = false) →
    (l₁ ++ l₂).takeWhile p = l₁ := by
  intro l₁
  induction l₁ with
  | nil =>
    intro l₂ _ h₂
    cases l₂ with
    | nil => rfl
    | cons b bs =>
      have hb : p b = false := h₂ b rfl
      simp [List.takeWhile_cons, hb]
  | cons a l ih =>
    intro l₂ h₁ h₂
    have ha : p a = true := h₁ a (List.mem_cons_self a l)
    simp only [List.cons_append, List.takeWhile_cons, ha, if_true]
    rw [ih l₂ (fun c hc => h₁ c (List.mem_cons_of_mem a hc)) h₂]

/-! ### Lemmas about the decimal rendering `natToStr` -/

theorem natToStrAux_fuel_eq :
    ∀ (n f₁ f₂ : ℕ), n < f₁ → n < f₂ → natToStrAux f₁ n = natToStrAux f₂ n := by
  intro n
  induction n using Nat.strong_induction_on with
  | _ n ih =>
    intro f₁ f₂ h₁ h₂
    cases f₁ with
    | zero => omega
    | succ g₁ =>
      cases f₂ with
      | zero => omega
      | succ g₂ =>
        simp only [natToStrAux]
        by_cases h : n < 10
        · simp [h]
        · have hd : n / 10 < n := Nat.div_lt_self (by omega) (by omega)
          simp only [h, if_false]
          rw [ih (n / 10) hd g₁ g₂ (by omega) (by omega)]

theorem natToStr_data (n : ℕ) : (natToStr n).data =
    if n < 10 then [Nat.digitChar n]
    else (natToStr (n / 10)).data ++ [Nat.digitChar (n % 10)] := by
  by_cases h : n < 10
  · simp [natToStr, natToStrAux, h]
  · have e1 : (natToStr n).data = natToStrAux n (n / 10) ++ [Nat.digitChar (n % 10)] := by
      simp [natToStr, natToStrAux, h]
    rw [if_neg h, e1, natToStrAux_fuel_eq (n / 10) n (n / 10 + 1)
      (Nat.div_lt_self (by omega) (by omega)) (by omega)]
    rfl

theorem natToStr_ne_nil (n : ℕ) : (natToStr n).data ≠ [] := by
  rw [natToStr_data]
  by_cases h : n < 10 <;> simp [h]

theorem natToStr_all_digits : ∀ n : ℕ, ∀ c ∈ (natToStr n).data, c.isDigit = true := by
  intro n
  induction n using Nat.strong_induction_on with
  | _ n ih =>
    intro c hc
    rw [natToStr_data] at hc
    by_cases h : n < 10
    · rw [if_pos h] at hc
      rw [List.mem_singleton] at hc
      subst hc
      exact digitChar_isDigit n h
    · rw [if_neg h] at hc
      rcases List.mem_append.mp hc with hc | hc
      · exact ih (n / 10) (Nat.div_lt_self (by omega) (by omega)) c hc
      · rw [List.mem_singleton] at hc
        subst hc
        exact digitChar_isDigit (n % 10) (Nat.mod_lt _ (by omega))

theorem digitsVal_natToStr : ∀ n : ℕ, digitsVal (natToStr n).data = n := by
  intro n
  induction n using Nat.strong_induction_on with
  | _ n ih =>
    rw [natToStr_data]
    by_cases h : n < 10
    · rw [if_pos h]
      simp [digitsVal, digitChar_toNat n h]
    · rw [if_neg h, digitsVal_append_singleton,
        ih (n / 10) (Nat.div_lt_self (by omega) (by omega)),
        digitChar_toNat (n % 10) (Nat.mod_lt _ (by omega))]
      omega

theorem natToStr_length_ge : ∀ (k n : ℕ), 10 ^ k ≤ n → k + 1 ≤ (natToStr n).data.length := by
  intro k
  induction k with
  | zero =>
    intro n _
    exact List.length_pos.mpr (natToStr_ne_nil n)
  | succ j ih =>
    intro n h
    have hn : ¬ n < 10 := by
      have h10 : (10 : ℕ) ≤ 10 ^ (j + 1) := by
        calc (10 : ℕ) = 10 ^ 1 := by norm_num
        _ ≤ 10 ^ (j + 1) := Nat.pow_le_pow_right (by omega) (by omega)
      omega
    rw [natToStr_data, if_neg hn, List.length_append]
    have hdiv : 10 ^ j ≤ n / 10 := by
      rw [Nat.le_div_iff_mul_le (by omega)]
      calc 10 ^ j * 10 = 10 ^ (j + 1) := by ring
      _ ≤ n := h
    have := ih (n / 10) hdiv
    simp only [List.length_singleton]
    omega

/-! ### Lemmas about `parseInt10` -/

theorem leadingDigitsVal_of_digits (ds t : List Char) (hne : ds ≠ [])
    (hd : ∀ c ∈ ds, c.isDigit = true) (ht : ∀ c ∈ t.head?, c.isDigit = false) :
    leadingDigitsVal (ds ++ t) = some (digitsVal ds) := by
  unfold leadingDigitsVal
  rw [takeWhile_append_all Char.isDigit ds t hd ht]
  obtain ⟨c, cs, rfl⟩ := List.exists_cons_of_ne_nil hne
  rfl

theorem parseInt10_of_digits (ds t : List Char) (hne : ds ≠ [])
    (hd : ∀ c ∈ ds, c.isDigit = true) (ht : ∀ c ∈ t.head?, c.isDigit = false) :
    parseInt10 ⟨ds ++ t⟩ = some ((digitsVal ds : ℕ) : Int) := by
  obtain ⟨c, cs, rfl⟩ := List.exists_cons_of_ne_nil hne
  have hcd : c.isDigit = true := hd c (List.mem_cons_self c cs)
  have hsp : isSpaceChar c = false := isSpaceChar_eq_false c hcd
  have hm : ¬ (c = '-') := isDigit_ne_of c '-' hcd (by decide)
  have hp : ¬ (c = '+') := isDigit_ne_of c '+' hcd (by decide)
  unfold parseInt10
  simp only [List.cons_append, List.dropWhile_cons, hsp, Bool.false_eq_true, if_false]
  simp only [if_neg hm, if_neg hp]
  rw [← List.cons_append, leadingDigitsVal_of_digits (c :: cs) t (by simp) hd ht]
  rfl

theorem parseInt10_natToStr_append (n : ℕ) (t : List Char)
    (ht : ∀ c ∈ t.head?, c.isDigit = false) :
    parseInt10 ⟨(natToStr n).data ++ t⟩ = some (n : Int) := by
  rw [parseInt10_of_digits _ t (natToStr_ne_nil n) (natToStr_all_digits n) ht,
    digitsVal_natToStr]

theorem parseInt10_natToStr (n : ℕ) : parseInt10 (natToStr n) = some (n : Int) := by
  have h := parseInt10_natToStr_append n [] (by intro c hc; cases hc)
  rwa [List.append_nil] at h

/-! ### String-level helper lemmas -/

theorem strData_append (a b : String) : (a ++ b).data = a.data ++ b.data := by
  cases a
  cases b
  rfl

theorem isPrefixOf_append_self : ∀ (l₁ l₂ : List Char), (l₁.isPrefixOf (l₁ ++ l₂)) = true := by
  intro l₁ l₂
  induction l₁ with
  | nil =>
    rw [List.nil_append]
    cases l₂ <;> rfl
  | cons a l ih => simp [List.isPrefixOf, ih]

theorem strStartsWith_append (a b : String) : strStartsWith (a ++ b) a = true := by
  unfold strStartsWith
  rw [strData_append]
  exact isPrefixOf_append_self a.data b.data

theorem strDropChars_append (a b : String) : strDropChars (a ++ b) a.data.length = b := by
  unfold strDropChars
  rw [strData_append, List.drop_left]

/-! ### Lemmas about the code-sequencing fold -/

theorem nextCodeStep_nonneg (yd : String) (acc : Int) (r : Option String) (h : 0 ≤ acc) :
    0 ≤ nextCodeStep yd acc r := by
  show 0 ≤ (if strStartsWith (r.getD "") yd then
    match parseInt10 (strDropChars (r.getD "") 5) with
    | some n => max acc n
    | none => acc
    else acc)
  split
  · split
    · exact le_trans h (le_max_left _ _)
    · exact h
  · exact h

theorem foldl_nextCodeStep_nonneg (yd : String) :
    ∀ (cs : List (Option String)) (acc : Int), 0 ≤ acc →
    0 ≤ cs.foldl (nextCodeStep yd) acc := by
  intro cs
  induction cs with
  | nil => intro acc h; exact h
  | cons c cs ih =>
    intro acc h
    exact ih _ (nextCodeStep_nonneg yd acc c h)

theorem nextCodeMax_nonneg (year : ℕ) (codes : List (Option String)) :
    0 ≤ nextCodeMax year codes :=
  foldl_nextCodeStep_nonneg _ codes 0 le_rfl

theorem nextCodeStep_skip (yd : String) (acc : Int) (r : Option String)
    (h : strStartsWith (r.getD "") yd = false) : nextCodeStep yd acc r = acc := by
  unfold nextCodeStep
  simp [h]

theorem nextCodeStep_unparseable (yd : String) (acc : Int) (r : Option String)
    (h : parseInt10 (strDropChars (r.getD "") 5) = none) : nextCodeStep yd acc r = acc := by
  show (if strStartsWith (r.getD "") yd then
    match parseInt10 (strDropChars (r.getD "") 5) with
    | some n => max acc n
    | none => acc
    else acc) = acc
  split
  · rw [h]
  · rfl

theorem foldl_nextCodeStep_skip (yd : String) :
    ∀ (cs : List (Option String)) (acc : Int),
    (∀ c ∈ cs, strStartsWith (c.getD "") yd = false) →
    cs.foldl (nextCodeStep yd) acc = acc := by
  intro cs
  induction cs with
  | nil => intro acc _; rfl
  | cons c cs ih =>
    intro acc h
    rw [List.foldl_cons, nextCodeStep_skip yd acc c (h c (List.mem_cons_self c cs))]
    exact ih acc (fun x hx => h x (List.mem_cons_of_mem c hx))

/-! ### Sum forms of the rollup folds -/

theorem foldl_add_eq_sum {α : Type} (f : α → ℚ) :
    ∀ (l : List α) (s : ℚ), l.foldl (fun a x => a + f x) s = s + (l.map f).sum := by
  intro l
  induction l with
  | nil => intro s; simp
  | cons a l ih =>
    intro s
    rw [List.foldl_cons, ih, List.map_cons, List.sum_cons]
    ring

theorem materialTotal_eq_sum (items : List BomItem) :
    materialTotal items = (items.map (fun it => numQ it.qty * numQ it.unit_price_net)).sum := by
  unfold materialTotal
  rw [foldl_add_eq_sum]
  ring

theorem timeCost_eq_sum (entries : List TimeEntry) (fb : Value) :
    timeCost entries fb =
      (entries.map (fun e => numQ e.hours * numQ (nullish e.hourly_rate fb))).sum := by
  unfold timeCost
  rw [foldl_add_eq_sum]
  ring

theorem materialTotal_append_cons (pre post : List BomItem) (it : BomItem) :
    materialTotal (pre ++ it :: post) =
      materialTotal (pre ++ post) + numQ it.qty * numQ it.unit_price_net := by
  rw [materialTotal_eq_sum, materialTotal_eq_sum]
  simp only [List.map_append, List.sum_append, List.map_cons, List.sum_cons]
  ring

theorem timeCost_append_cons (pre post : List TimeEntry) (e : TimeEntry) (fb : Value) :
    timeCost (pre ++ e :: post) fb =
      timeCost (pre ++ post) fb + numQ e.hours * numQ (nullish e.hourly_rate fb) := by
  rw [timeCost_eq_sum, timeCost_eq_sum]
  simp only [List.map_append, List.sum_append, List.map_cons, List.sum_cons]
  ring

theorem nullish_of_ne (x y : Value) (h : x ≠ Value.vnull) : nullish x y = x := by
  cases x with
  | vnum n => rfl
  | vstr s => rfl
  | vnull => exact absurd rfl h

/-! ### The loop step on well-formed digit codes -/

theorem nextCodeStep_digit_code (a : Int) (n : ℕ) :
    nextCodeStep (natToStr 2025 ++ "-") a (some ("2025-" ++ natToStr n)) = max a (n : Int) := by
  show (if strStartsWith ("2025-" ++ natToStr n) (natToStr 2025 ++ "-") then
      match parseInt10 (strDropChars ("2025-" ++ natToStr n) 5) with
      | some m => max a m
      | none => a
      else a) = max a (n : Int)
  have hyd : (natToStr 2025 ++ "-" : String) = "2025-" := by decide
  have hdrop : strDropChars ("2025-" ++ natToStr n) 5 = natToStr n := by
    have h5 : ("2025-" : String).data.length = 5 := by decide
    rw [← h5, strDropChars_append]
  rw [hyd, strStartsWith_append, if_pos rfl, hdrop, parseInt10_natToStr n]

theorem foldl_digit_codes : ∀ (ns : List ℕ) (a : ℕ),
    (ns.map (fun n => some ("2025-" ++ natToStr n))).foldl
      (nextCodeStep (natToStr 2025 ++ "-")) (a : Int) = ((ns.foldl max a : ℕ) : Int) := by
  intro ns
  induction ns with
  | nil => intro a; rfl
  | cons n ns ih =>
    intro a
    rw [List.map_cons, List.foldl_cons, List.foldl_cons, nextCodeStep_digit_code,
      show (max (a : Int) (n : Int)) = ((max a n : ℕ) : Int) from (Nat.cast_max a n).symm, ih]

theorem intToStr_natCast_succ (n : ℕ) : intToStr ((n : Int) + 1) = natToStr (n + 1) := by
  unfold intToStr
  rw [if_neg (by omega), show ((n : Int) + 1).toNat = n + 1 from by omega]

theorem padStart_of_ge (s : String) (len : ℕ) (c : Char) (h : len ≤ s.length) :
    padStart s len c = s := by
  unfold padStart
  rw [if_pos h]

/-! ### Claim theorems -/

/-- Claim C1, counterexample: the claim says the margin computation with revenue
exactly 0 returns an explicit undefined marker distinct from the number 0 and
never the number 0; but the embedded code (the ternary at
src/src/App.tsx:825-826) returns exactly the number 0 at profit 5 and
revenue 0. -/
theorem marginPct_zero_revenue_counterexample :
    marginPct 5 (.vnum (.fin 0)) = 0 := by
  unfold marginPct
  rw [show numQ (Value.vnum (JSNum.fin 0)) = 0 from rfl]
  simp

/-- Claim C1, amended: for every value of profit, the margin computation with
revenue exactly 0 (or null revenue) returns the number 0 — the truthiness
guard in the code takes the `: 0` branch, yielding 0 rather than an undefined
marker (and rather than an exception). -/
theorem marginPct_zero_revenue (profit : ℚ) :
    marginPct profit (.vnum (.fin 0)) = 0 ∧ marginPct profit .vnull = 0 := by
  unfold marginPct
  rw [show numQ (Value.vnum (JSNum.fin 0)) = 0 from rfl,
    show numQ Value.vnull = 0 from rfl]
  simp

/-- Claim C2: `getNextProjectCode` on the example from the spec yields `"2025-008"`; the
empty list yields `"2025-001"`; codes without the `"{year}-"` prefix are
ignored; when no code matches the result is `"2025-001"`; on any list of
well-formed digit codes the result is the `"{year}-"` prefix followed by the
zero-padded successor of the maximum suffix; and for every input list the
result is a well-formed code of that shape (the function is total). -/
theorem nextProjectCode_spec :
    getNextProjectCode 2025 [some "2025-001", some "2025-007", some "2024-099"] = "2025-008" ∧
    getNextProjectCode 2025 [] = "2025-001" ∧
    (∀ (c : Option String) (cs : List (Option String)),
      strStartsWith (c.getD "") "2025-" = false →
      getNextProjectCode 2025 (c :: cs) = getNextProjectCode 2025 cs) ∧
    (∀ cs : List (Option String),
      (∀ c ∈ cs, strStartsWith (c.getD "") "2025-" = false) →
      getNextProjectCode 2025 cs = "2025-001") ∧
    (∀ ns : List ℕ,
      getNextProjectCode 2025 (ns.map (fun n => some ("2025-" ++ natToStr n)))
        = "2025-" ++ padStart (natToStr (ns.foldl max 0 + 1)) 3 '0') ∧
    (∀ (year : ℕ) (cs : List (Option String)), ∃ n : ℕ,
      getNextProjectCode year cs = natToStr year ++ "-" ++ padStart (natToStr (n + 1)) 3 '0') := by
  have hyd : (natToStr 2025 ++ "-" : String) = "2025-" := by decide
  refine ⟨by decide, by decide, ?_, ?_, ?_, ?_⟩
  · intro c cs h
    unfold getNextProjectCode nextCodeMax
    rw [List.foldl_cons, nextCodeStep_skip _ 0 c (by rw [hyd]; exact h)]
  · intro cs h
    unfold getNextProjectCode nextCodeMax
    rw [foldl_nextCodeStep_skip _ cs 0 (fun x hx => by rw [hyd]; exact h x hx)]
    decide
  · intro ns
    unfold getNextProjectCode nextCodeMax
    rw [show (0 : Int) = ((0 : ℕ) : Int) from rfl, foldl_digit_codes ns 0,
      intToStr_natCast_succ, hyd]
  · intro year cs
    have hnn := nextCodeMax_nonneg year cs
    refine ⟨(nextCodeMax year cs).toNat, ?_⟩
    unfold getNextProjectCode
    have he : intToStr (nextCodeMax year cs + 1)
        = natToStr ((nextCodeMax year cs).toNat + 1) := by
      have h2 : nextCodeMax year cs + 1 = ((nextCodeMax year cs).toNat : Int) + 1 := by omega
      rw [h2, intToStr_natCast_succ]
    rw [he]

/-- Witness for C2: the ignore-non-matching clause applied at a concrete
non-matching code. -/
theorem nextProjectCode_spec_witness :
    getNextProjectCode 2025 [some "ZZZ-100", some "2025-004"]
      = getNextProjectCode 2025 [some "2025-004"] :=
  nextProjectCode_spec.2.2.1 (some "ZZZ-100") [some "2025-004"] (by decide)

/-- Claim C3: the 3-digit zero padding of `getNextProjectCode` is a minimum width,
not a maximum: `padStart` leaves any string of length at least the target
unchanged, a maximum suffix of 999 yields `"2025-1000"`, and in general any
digit-code suffix of at least 999 yields the full successor without
truncation or wraparound. -/
theorem nextProjectCode_overflow_spec :
    getNextProjectCode 2025 [some "2025-999"] = "2025-1000" ∧
    (∀ (s : String) (len : ℕ) (c : Char), len ≤ s.length → padStart s len c = s) ∧
    (∀ n : ℕ, 999 ≤ n →
      getNextProjectCode 2025 [some ("2025-" ++ natToStr n)] = "2025-" ++ natToStr (n + 1)) := by
  have hyd : (natToStr 2025 ++ "-" : String) = "2025-" := by decide
  refine ⟨by decide, padStart_of_ge, ?_⟩
  intro n h
  have hl : 3 ≤ (natToStr (n + 1)).length := by
    have h4 : 4 ≤ (natToStr (n + 1)).data.length := by
      refine natToStr_length_ge 3 (n + 1) ?_
      calc (10 : ℕ) ^ 3 = 1000 := by norm_num
      _ ≤ n + 1 := by omega
    exact le_trans (by omega) h4
  unfold getNextProjectCode nextCodeMax
  rw [List.foldl_cons, List.foldl_nil, nextCodeStep_digit_code,
    max_eq_right (by omega : (0 : Int) ≤ (n : Int)), intToStr_natCast_succ,
    padStart_of_ge _ 3 '0' hl, hyd]

/-- Witness for C3: the general no-truncation clause applied at 5000. -/
theorem nextProjectCode_overflow_spec_witness :
    getNextProjectCode 2025 [some ("2025-" ++ natToStr 5000)] = "2025-" ++ natToStr 5001 :=
  nextProjectCode_overflow_spec.2.2 5000 (by omega)

/-- Claim C10: a matching code whose suffix starts with digits but carries trailing
junk is parsed by its leading digit run (`"2025-12abc"` contributes 12, so
the next code is `"2025-013"`); in general `parseInt10` of a rendered number
followed by a non-digit tail parses the leading number; and a matching code
whose suffix has no leading parseable number is ignored by the fold. -/
theorem parseInt_partial_suffix_spec :
    getNextProjectCode 2025 [some "2025-12abc"] = "2025-013" ∧
    (∀ (n : ℕ) (t : List Char), t.head?.all (fun c => ! c.isDigit) = true →
      parseInt10 ⟨(natToStr n).data ++ t⟩ = some (n : Int)) ∧
    (∀ (c : Option String) (cs : List (Option String)),
      parseInt10 (strDropChars (c.getD "") 5) = none →
      getNextProjectCode 2025 (c :: cs) = getNextProjectCode 2025 cs) := by
  refine ⟨by decide, ?_, ?_⟩
  · intro n t h
    refine parseInt10_natToStr_append n t ?_
    intro c hc
    rw [Option.mem_def] at hc
    rw [hc] at h
    simpa using h
  · intro c cs h
    unfold getNextProjectCode nextCodeMax
    rw [List.foldl_cons, nextCodeStep_unparseable _ 0 c h]

/-- Witness for C10: the leading-digit parse clause at `12` with tail
`"abc"`. -/
theorem parseInt_partial_suffix_spec_witness :
    parseInt10 ⟨(natToStr 12).data ++ "abc".data⟩ = some (12 : Int) :=
  parseInt_partial_suffix_spec.2.1 12 "abc".data (by decide)

/-- Claim C4: `materialTotal` (the BOM rollup of src/src/App.tsx:820 and 896) is
invariant under every permutation of its input list. -/
theorem materialTotal_perm_spec :
    ∀ (l₁ l₂ : List BomItem), l₁.Perm l₂ → materialTotal l₁ = materialTotal l₂ := by
  intro l₁ l₂ hp
  rw [materialTotal_eq_sum, materialTotal_eq_sum]
  exact List.Perm.sum_eq (hp.map _)

/-- Witness for C4: a concrete two-line swap. -/
theorem materialTotal_perm_spec_witness :
    materialTotal [⟨Value.vnum (JSNum.fin 2), Value.vnum (JSNum.fin 30)⟩,
                   ⟨Value.vnum (JSNum.fin 5), Value.vnum (JSNum.fin 7)⟩]
      = materialTotal [⟨Value.vnum (JSNum.fin 5), Value.vnum (JSNum.fin 7)⟩,
                       ⟨Value.vnum (JSNum.fin 2), Value.vnum (JSNum.fin 30)⟩] :=
  materialTotal_perm_spec _ _ (List.Perm.swap _ _ [])

/-- Claim C5: the time-cost rollup (src/src/App.tsx:813 and 1086-1087) uses the
rate of the entry itself whenever it is non-null and the project fallback only for a
null rate; concretely hours 2 with rate 80 against fallback 65 contributes
160, and with a null rate contributes 130. -/
theorem timeCost_fallback_spec :
    (∀ (pre post : List TimeEntry) (e : TimeEntry) (fb : Value),
      e.hourly_rate ≠ Value.vnull →
      timeCost (pre ++ e :: post) fb
        = timeCost (pre ++ post) fb + numQ e.hours * numQ e.hourly_rate) ∧
    (∀ (pre post : List TimeEntry) (e : TimeEntry) (fb : Value),
      e.hourly_rate = Value.vnull →
      timeCost (pre ++ e :: post) fb
        = timeCost (pre ++ post) fb + numQ e.hours * numQ fb) ∧
    timeCost [⟨Value.vnum (JSNum.fin 2), Value.vnum (JSNum.fin 80)⟩]
      (Value.vnum (JSNum.fin 65)) = 160 ∧
    timeCost [⟨Value.vnum (JSNum.fin 2), Value.vnull⟩]
      (Value.vnum (JSNum.fin 65)) = 130 := by
  refine ⟨?_, ?_, ?_, ?_⟩
  · intro pre post e fb h
    rw [timeCost_append_cons, nullish_of_ne e.hourly_rate fb h]
  · intro pre post e fb h
    rw [timeCost_append_cons, h]
    rfl
  · show (0 : ℚ) + 2 * 80 = 160
    norm_num
  · show (0 : ℚ) + 2 * 65 = 130
    norm_num

/-- Witness for C5: both precedence clauses applied at hours 3, entry rate
80 (respectively null) and fallback 65. -/
theorem timeCost_fallback_spec_witness :
    timeCost [⟨Value.vnum (JSNum.fin 3), Value.vnum (JSNum.fin 80)⟩]
        (Value.vnum (JSNum.fin 65))
      = timeCost [] (Value.vnum (JSNum.fin 65))
        + numQ (Value.vnum (JSNum.fin 3)) * numQ (Value.vnum (JSNum.fin 80)) ∧
    timeCost [⟨Value.vnum (JSNum.fin 3), Value.vnull⟩] (Value.vnum (JSNum.fin 65))
      = timeCost [] (Value.vnum (JSNum.fin 65))
        + numQ (Value.vnum (JSNum.fin 3)) * numQ (Value.vnum (JSNum.fin 65)) :=
  ⟨timeCost_fallback_spec.1 [] [] _ _ (by decide),
   timeCost_fallback_spec.2.1 [] [] _ _ rfl⟩

/-- Claim C6: the quote totals (src/src/App.tsx:1309-1318) satisfy the
line/VAT/gross equations of the spec — per line `qty * unit_price_net * (1 -
discount_pct/100)` summed into `sumNet`, `vat = sumNet * taxRate / 100`,
`gross = sumNet + vat`, `taxRate` defaulting to 19 when the header (or its
`tax_rate`) is absent — and on the single item qty 2, unit price 100,
discount 10 with tax rate 19 produce exactly 180, 34.2 (= 171/5) and
214.2 (= 1071/5). -/
theorem quoteTotals_spec :
    (∀ (qh : Option Quote) (items : List QuoteItem),
      (quoteTotals qh items).sumNet
        = (items.map (fun it =>
            numQ it.qty * numQ it.unit_price_net * (1 - numQ it.discount_pct / 100))).sum) ∧
    (∀ (qh : Option Quote) (items : List QuoteItem),
      (quoteTotals qh items).vat
        = (quoteTotals qh items).sumNet * (quoteTotals qh items).taxRate / 100) ∧
    (∀ (qh : Option Quote) (items : List QuoteItem),
      (quoteTotals qh items).gross
        = (quoteTotals qh items).sumNet + (quoteTotals qh items).vat) ∧
    (∀ items : List QuoteItem, (quoteTotals none items).taxRate = 19) ∧
    (∀ (items : List QuoteItem) (q : Quote), q.tax_rate = Value.vnull →
      (quoteTotals (some q) items).taxRate = 19) ∧
    (quoteTotals (some ⟨Value.vnum (JSNum.fin 19)⟩)
      [⟨Value.vnum (JSNum.fin 2), Value.vnum (JSNum.fin 100),
        Value.vnum (JSNum.fin 10)⟩]).sumNet = 180 ∧
    (quoteTotals (some ⟨Value.vnum (JSNum.fin 19)⟩)
      [⟨Value.vnum (JSNum.fin 2), Value.vnum (JSNum.fin 100),
        Value.vnum (JSNum.fin 10)⟩]).vat = 171 / 5 ∧
    (quoteTotals (some ⟨Value.vnum (JSNum.fin 19)⟩)
      [⟨Value.vnum (JSNum.fin 2), Value.vnum (JSNum.fin 100),
        Value.vnum (JSNum.fin 10)⟩]).gross = 1071 / 5 := by
  refine ⟨?_, fun qh items => rfl, fun qh items => rfl, fun items => rfl, ?_, ?_, ?_, ?_⟩
  · intro qh items
    show items.foldl (fun s it =>
      s + numQ it.qty * (numQ it.unit_price_net * (1 - numQ it.discount_pct / 100))) 0 = _
    rw [foldl_add_eq_sum, zero_add]
    simp only [mul_assoc]
  · intro items q h
    show numQ (nullish q.tax_rate (Value.vnum (JSNum.fin 19))) = 19
    rw [h]
    rfl
  · show (0 : ℚ) + 2 * (100 * (1 - 10 / 100)) = 180
    norm_num
  · show ((0 : ℚ) + 2 * (100 * (1 - 10 / 100))) * 19 / 100 = 171 / 5
    norm_num
  · show ((0 : ℚ) + 2 * (100 * (1 - 10 / 100)))
      + ((0 : ℚ) + 2 * (100 * (1 - 10 / 100))) * 19 / 100 = 1071 / 5
    norm_num

/-- Witness for C6: the default-rate clause applied to a header whose
`tax_rate` is null. -/
theorem quoteTotals_spec_witness :
    (quoteTotals (some ⟨Value.vnull⟩) []).taxRate = 19 :=
  quoteTotals_spec.2.2.2.2.1 [] ⟨Value.vnull⟩ rfl

/-- Claim C7: `isArchived` matches the archived-set case-insensitively (both
`"Abgeschlossen"` and `"abgeschlossen"`, and likewise the all-caps form and
`"Nicht Beauftragt"`, return true), returns false on null, and classifies
every status whose lower-casing is outside the archived-set — unknown
statuses in particular — as active.  Totality over strings and null is by
construction of the embedding: the function is a Lean function into `Bool`. -/
theorem isArchived_total_spec :
    isArchived (some "Abgeschlossen") = true ∧
    isArchived (some "abgeschlossen") = true ∧
    isArchived (some "ABGESCHLOSSEN") = true ∧
    isArchived (some "Nicht Beauftragt") = true ∧
    isArchived none = false ∧
    isArchived (some "In Planung") = false ∧
    (∀ s : Option String,
      strToLower (s.getD "") ≠ "abgeschlossen" →
      strToLower (s.getD "") ≠ "nicht beauftragt" →
      isArchived s = false) := by
  refine ⟨by decide, by decide, by decide, by decide, by decide, by decide, ?_⟩
  intro s h1 h2
  unfold isArchived
  simp [h1, h2]

/-- Witness for C7: the fail-open clause applied at a concrete unknown
status. -/
theorem isArchived_total_spec_witness :
    isArchived (some "Montage") = false :=
  isArchived_total_spec.2.2.2.2.2.2 (some "Montage") (by decide) (by decide)

/-- Claim C8: a BOM line whose `qty` or `unit_price_net` is null contributes
nothing — the total equals the total with the line omitted, and equals the
total with the null field replaced by 0 — and the coercion maps null and NaN
to 0, so no not-a-number enters a total. -/
theorem materialTotal_null_coercion_spec :
    (∀ (pre post : List BomItem) (it : BomItem),
      it.qty = Value.vnull ∨ it.unit_price_net = Value.vnull →
      materialTotal (pre ++ it :: post) = materialTotal (pre ++ post) ∧
      materialTotal (pre ++
        (⟨(if it.qty = Value.vnull then Value.vnum (JSNum.fin 0) else it.qty),
          (if it.unit_price_net = Value.vnull then Value.vnum (JSNum.fin 0)
            else it.unit_price_net)⟩ : BomItem) :: post) = materialTotal (pre ++ post)) ∧
    numQ Value.vnull = 0 ∧
    numQ (Value.vnum JSNum.nan) = 0 := by
  refine ⟨?_, rfl, rfl⟩
  intro pre post it h
  have h0 : numQ Value.vnull = 0 := rfl
  constructor
  · rw [materialTotal_append_cons]
    rcases h with h | h
    · rw [h, h0]
      ring
    · rw [h, h0]
      ring
  · rw [materialTotal_append_cons]
    dsimp only
    rcases h with h | h
    · rw [if_pos h, show numQ (Value.vnum (JSNum.fin 0)) = 0 from rfl]
      ring
    · rw [if_pos h, show numQ (Value.vnum (JSNum.fin 0)) = 0 from rfl]
      ring

/-- Witness for C8: a line with null `qty` and price 5, dropped and
zero-substituted. -/
theorem materialTotal_null_coercion_spec_witness :
    materialTotal [⟨Value.vnull, Value.vnum (JSNum.fin 5)⟩] = materialTotal [] ∧
    materialTotal [⟨Value.vnum (JSNum.fin 0), Value.vnum (JSNum.fin 5)⟩] = materialTotal [] :=
  materialTotal_null_coercion_spec.1 [] [] ⟨Value.vnull, Value.vnum (JSNum.fin 5)⟩ (Or.inl rfl)

/-- Claim C9: `num` with the default fallback 0 maps NaN, Infinity and -Infinity
to 0, and its result is finite for every input value. -/
theorem num_total_finite_spec :
    num (.vnum .nan) (.fin 0) = .fin 0 ∧
    num (.vnum .inf) (.fin 0) = .fin 0 ∧
    num (.vnum .negInf) (.fin 0) = .fin 0 ∧
    (∀ v : Value, (num v (.fin 0)).isFinite = true) := by
  refine ⟨rfl, rfl, rfl, ?_⟩
  have hif : ∀ m : JSNum, (if m.isFinite then m else JSNum.fin 0).isFinite = true := by
    intro m
    cases m <;> rfl
  intro v
  cases v with
  | vnum n => exact hif n
  | vstr s => exact hif (parseFloat s)
  | vnull => exact hif (parseFloat "")

/-- Witness for the amended C1 statement, at profit 7. -/
theorem marginPct_zero_revenue_witness :
    marginPct 7 (.vnum (.fin 0)) = 0 ∧ marginPct 7 .vnull = 0 :=
  marginPct_zero_revenue 7

/-- Witness for C9: the finiteness clause applied to a non-numeric string. -/
theorem num_total_finite_spec_witness :
    (num (.vstr "xyz") (.fin 0)).isFinite = true :=
  num_total_finite_spec.2.2.2 (.vstr "xyz")
